import Mathlib

/-!
Shallow embedding of the DiskANN Python binding layer
(`python/src/diskann_bindings.cpp`) for the Recall Evaluator
(`calculate_recall`, `calculate_recall_numpy_input`), the thread plumbing of
the two batch-search bindings, and `load_index`.

Modelling conventions:
* C++ `unsigned`/`size_t` values are `Nat`; where a wrap matters
  (`recall_at - 1` on `unsigned`) it is made explicit with `% 2^32`.
* `float` ground-truth distances are modelled as exact `Int` values
  (the claims under study do not involve NaN or rounding; `==` on
  non-NaN floats is ordinary equality).
* `double` accumulation and the final division are modelled exactly over `ℚ`.
* Raw-pointer element reads are total functions into `Option`: a read past
  the end of the backing array is the `none` branch (the C++ out-of-bounds
  access).  A null `ground_truth_dists.data()` pointer is `none` at the
  `Option (List Int)` level.
-/

namespace DiskannBindings

/-- `2^32`, the modulus of the C++ `unsigned` type used for `recall_at`. -/
def U32 : Nat := 2 ^ 32

/-- The C++ expression `recall_at - 1` evaluated on `unsigned`:
subtraction wraps modulo `2^32` (so `0 - 1 = 2^32 - 1`). -/
def u32sub1 (k : Nat) : Nat := (k + (U32 - 1)) % U32

/-- The tie-expansion `while` loop of `calculate_recall`
(`while (tie_breaker < ground_truth_dims && gt_dist_vec[tie_breaker] == gt_dist_vec[recall_at - 1]) tie_breaker++`),
with `gt_dist_vec = gtd_ptr + base` and `k1` the (wrapped) value of
`recall_at - 1`.  Element reads are checked: an index past the end of the
distances array is the out-of-bounds branch `none`. -/
def tieLoopAux (gtd : List Int) (base k1 : Nat) : Nat → Nat → Option Nat
  | 0, tb => some tb
  | fuel + 1, tb =>
    match gtd[base + tb]?, gtd[base + k1]? with
    | some a, some b =>
      if a = b then tieLoopAux gtd base k1 fuel (tb + 1) else some tb
    | some _, none => none
    | none, _ => none

/-- The loop itself: the remaining iteration budget `dims - tb` is exactly
the number of further steps the guard `tie_breaker < ground_truth_dims`
can admit, so running `tieLoopAux` on that budget is the loop
(`dims - tb = 0` iff the guard fails at entry). -/
def tieLoop (gtd : List Int) (base dims k1 tb : Nat) : Option Nat :=
  tieLoopAux gtd base k1 (dims - tb) tb

/-- Reading the contiguous element range `[base, base + cnt)` out of a backing
array (the pointer-range `std::set::insert` calls in `calculate_recall`),
front to back; `none` if any read is out of bounds. -/
def readSlice {α : Type} (l : List α) (base : Nat) : Nat → Option (List α)
  | 0 => some []
  | n + 1 =>
    match l[base]?, readSlice l (base + 1) n with
    | some x, some xs => some (x :: xs)
    | some _, none => none
    | none, _ => none

/-- The arguments of the `calculate_recall` binding.
`ground_truth_dists = none` models a null `ground_truth_dists.data()`
pointer (the `gtd_ptr != nullptr` test in the source). -/
structure RecallInput where
  num_queries : Nat
  ground_truth_ids : List Nat
  ground_truth_dists : Option (List Int)
  ground_truth_dims : Nat
  results : List Nat
  result_dims : Nat
  recall_at : Nat

/-- The `tie_breaker` computation of both recall bindings (the code block is
textually identical in the two): `tie_breaker = recall_at` when the distances
pointer is null, otherwise the tie-expansion loop started at the wrapped
`recall_at - 1`. -/
def tieBreaker (gtdist : Option (List Int)) (gtdims k i : Nat) : Option Nat :=
  match gtdist with
  | none => some k
  | some gtd => tieLoop gtd (gtdims * i) gtdims (u32sub1 k) (u32sub1 k)

/-- One iteration of the per-query loop of `calculate_recall`: compute the
tie-expanded window width `tie_breaker`, build the ground-truth set `gt` and
result set `res` from the pointer ranges, and count the members of `gt` found
in `res` (`cur_recall`); a failed (out-of-bounds) read propagates as `none`. -/
def queryRecall (inp : RecallInput) (i : Nat) : Option Nat :=
  (tieBreaker inp.ground_truth_dists inp.ground_truth_dims inp.recall_at i).bind
    fun tb =>
      (readSlice inp.ground_truth_ids (inp.ground_truth_dims * i) tb).bind
        fun gtL =>
          (readSlice inp.results (inp.result_dims * i) inp.recall_at).map
            fun resL => gtL.dedup.countP (fun v => resL.contains v)

/-- The summation loop `total_recall += cur_recall` over queries `0..n-1`. -/
def recallSum (inp : RecallInput) : Nat → Option Nat
  | 0 => some 0
  | n + 1 =>
    match recallSum inp n, queryRecall inp n with
    | some s, some c => some (s + c)
    | some _, none => none
    | none, _ => none

/-- The `calculate_recall` binding: per-query matched counts are summed and
the return value is `total_recall / num_queries * (100.0 / recall_at)`. -/
def calculate_recall (inp : RecallInput) : Option ℚ :=
  match recallSum inp inp.num_queries with
  | none => none
  | some total =>
    some ((total : ℚ) / (inp.num_queries : ℚ) * (100 / (inp.recall_at : ℚ)))

/-! ### The numpy-results variant -/

/-- A numpy `uint32` array as the `calculate_recall_numpy_input` binding sees
it: a raw data pointer (`mutable_data()`) with an element count.  Reads are
position-indexed; an index at or past `size` is out of bounds. -/
structure NpArrayU32 where
  size : Nat
  data : Nat → Nat

/-- Checked element read from a numpy `uint32` array. -/
def npGet (a : NpArrayU32) (j : Nat) : Option Nat :=
  if j < a.size then some (a.data j) else none

/-- Reading the contiguous range `[base, base + cnt)` from a numpy array. -/
def readNp (a : NpArrayU32) (base : Nat) : Nat → Option (List Nat)
  | 0 => some []
  | n + 1 =>
    match npGet a base, readNp a (base + 1) n with
    | some x, some xs => some (x :: xs)
    | some _, none => none
    | none, _ => none

/-- The arguments of the `calculate_recall_numpy_input` binding: identical to
`RecallInput` except that `results` is a numpy array. -/
structure RecallInputNp where
  num_queries : Nat
  ground_truth_ids : List Nat
  ground_truth_dists : Option (List Int)
  ground_truth_dims : Nat
  results : NpArrayU32
  result_dims : Nat
  recall_at : Nat

/-- Per-query loop body of `calculate_recall_numpy_input` (the source
duplicates the `calculate_recall` body verbatim; only the `results` reads go
through the numpy array). -/
def queryRecallNp (inp : RecallInputNp) (i : Nat) : Option Nat :=
  (tieBreaker inp.ground_truth_dists inp.ground_truth_dims inp.recall_at i).bind
    fun tb =>
      (readSlice inp.ground_truth_ids (inp.ground_truth_dims * i) tb).bind
        fun gtL =>
          (readNp inp.results (inp.result_dims * i) inp.recall_at).map
            fun resL => gtL.dedup.countP (fun v => resL.contains v)

/-- Summation loop of `calculate_recall_numpy_input`. -/
def recallSumNp (inp : RecallInputNp) : Nat → Option Nat
  | 0 => some 0
  | n + 1 =>
    match recallSumNp inp n, queryRecallNp inp n with
    | some s, some c => some (s + c)
    | some _, none => none
    | none, _ => none

/-- The `calculate_recall_numpy_input` binding. -/
def calculate_recall_numpy_input (inp : RecallInputNp) : Option ℚ :=
  match recallSumNp inp inp.num_queries with
  | none => none
  | some total =>
    some ((total : ℚ) / (inp.num_queries : ℚ) * (100 / (inp.recall_at : ℚ)))

/-! ### Store-threading execution of `calculate_recall`
An instruction-level view in which the three caller-owned arrays live in an
explicit store that every loop iteration receives and passes on, so that
"the function writes nothing into the arrays" is an observable statement
about the final store rather than a typing convention. -/

/-- The caller-owned arrays `calculate_recall` receives by reference. -/
structure Store where
  ground_truth_ids : List Nat
  ground_truth_dists : Option (List Int)
  results : List Nat
deriving DecidableEq

/-- Per-query body of `calculate_recall` reading from an explicit store;
every access is a read, and the store the iteration hands on is returned
alongside `cur_recall`. -/
def queryRecallS (σ : Store) (gtdims rdims k : Nat) (i : Nat) :
    Option (Store × Nat) :=
  (tieBreaker σ.ground_truth_dists gtdims k i).bind
    fun tb =>
      (readSlice σ.ground_truth_ids (gtdims * i) tb).bind
        fun gtL =>
          (readSlice σ.results (rdims * i) k).map
            fun resL => (σ, gtL.dedup.countP (fun v => resL.contains v))

/-- Summation loop threading the store through all iterations. -/
def recallSumS (gtdims rdims k : Nat) : Nat → Store → Option (Store × Nat)
  | 0, σ => some (σ, 0)
  | n + 1, σ =>
    match recallSumS gtdims rdims k n σ with
    | some (σ', s) =>
      match queryRecallS σ' gtdims rdims k n with
      | some (σ'', c) => some (σ'', s + c)
      | none => none
    | none => none

/-- Store of an input's arrays. -/
def RecallInput.store (inp : RecallInput) : Store :=
  ⟨inp.ground_truth_ids, inp.ground_truth_dists, inp.results⟩

/-- `calculate_recall` run against the explicit store: returns the value
together with the arrays as they stand after the call. -/
def calculate_recall_exec (inp : RecallInput) : Option (ℚ × Store) :=
  match recallSumS inp.ground_truth_dims inp.result_dims inp.recall_at
      inp.num_queries inp.store with
  | none => none
  | some (σ, total) =>
    some ((total : ℚ) / (inp.num_queries : ℚ) * (100 / (inp.recall_at : ℚ)), σ)

/-! ### Batch-search thread plumbing -/

/-- The process-wide OpenMP thread setting
(read by `#pragma omp parallel for`, written by `omp_set_num_threads`).
Modelled from the spec: the worker-pool width an OpenMP parallel region
uses is the ambient process-wide setting at the time the region starts. -/
structure OmpState where
  max_threads : Nat
deriving DecidableEq

/-- The binding `omp_set_num_threads`. -/
def omp_set_num_threads (n : Nat) (_σ : OmpState) : OmpState := ⟨n⟩

/-- Thread plumbing of `batch_search`: the source calls
`omp_set_num_threads(num_threads)` and then opens the
`#pragma omp parallel for` region.  Returns the worker count the region runs
with and the OpenMP state after the call. -/
def batch_search_threads (num_threads : Nat) (σ : OmpState) : Nat × OmpState :=
  let σ' := omp_set_num_threads num_threads σ
  (σ'.max_threads, σ')

/-- Thread plumbing of `batch_search_numpy_input`: the source opens the
`#pragma omp parallel for` region directly; its `num_threads` argument is
never read. -/
def batch_search_numpy_input_threads (_num_threads : Nat) (σ : OmpState) :
    Nat × OmpState :=
  (σ.max_threads, σ)

/-! ### `load_index` -/

/-- Observable outcome of the `load_index` binding.  `cache_bfs_budgets`
records, in order, the `num_nodes_to_cache` values passed to
`cache_bfs_levels`; `ret` is the returned status. `usable` — modelled from
the spec (the `PQFlashIndex` state machine is outside this repository):
the instance serves queries iff the load succeeded. -/
structure LoadOutcome where
  cache_bfs_budgets : List Nat
  ret : Int
  usable : Bool
deriving DecidableEq

/-- The `load_index` binding, as a function of the status
`pq_flash_index->load(...)` returns: on failure that status is returned with
no `cache_bfs_levels` call; on success `cache_bfs_levels` is called with
`num_nodes_to_cache = 1000` and `0` is returned. -/
def load_index (load_success : Int) : LoadOutcome :=
  if load_success ≠ 0 then ⟨[], load_success, false⟩
  else ⟨[1000], 0, true⟩

/-! ### Validity precondition for the recall bindings -/

/-- The validity precondition of claim C10: `recall_at` is a nonzero
`unsigned` value, at most each row width, and every array holds at least
`num_queries` rows of its stated width. -/
def ValidInput (inp : RecallInput) : Prop :=
  1 ≤ inp.recall_at ∧ inp.recall_at < U32 ∧
  inp.recall_at ≤ inp.ground_truth_dims ∧
  inp.recall_at ≤ inp.result_dims ∧
  inp.num_queries * inp.ground_truth_dims ≤ inp.ground_truth_ids.length ∧
  (∀ gtd, inp.ground_truth_dists = some gtd →
    inp.num_queries * inp.ground_truth_dims ≤ gtd.length) ∧
  inp.num_queries * inp.result_dims ≤ inp.results.length

instance (inp : RecallInput) : Decidable (ValidInput inp) := by
  unfold ValidInput
  have : Decidable (∀ gtd, inp.ground_truth_dists = some gtd →
      inp.num_queries * inp.ground_truth_dims ≤ gtd.length) := by
    cases h : inp.ground_truth_dists with
    | none => exact isTrue (by intro g hg; simp [h] at hg)
    | some g =>
      cases Nat.decLe (inp.num_queries * inp.ground_truth_dims) g.length with
      | isTrue ht =>
        exact isTrue (by intro g' hg'; injection hg' with e; exact e ▸ ht)
      | isFalse hf => exact isFalse (by intro hall; exact hf (hall g rfl))
  exact inferInstance

/-! ### Window views used in theorem statements -/

/-- The per-query ground-truth id window of width `cnt`
(the pointer range `[gti_ptr + ground_truth_dims * i, … + cnt)`). -/
def idWindow (inp : RecallInput) (i cnt : Nat) : List Nat :=
  (inp.ground_truth_ids.drop (inp.ground_truth_dims * i)).take cnt

/-- The per-query result window: the first `recall_at` entries of row `i`
of `results`. -/
def resWindow (inp : RecallInput) (i : Nat) : List Nat :=
  (inp.results.drop (inp.result_dims * i)).take inp.recall_at

/-- `cur_recall` of one query: how many distinct ids of the ground-truth
window also occur in the result window. -/
def matchCount (gtL resL : List Nat) : Nat :=
  gtL.dedup.countP (fun v => resL.contains v)

/-! ### Concrete example inputs -/

/-- The spec's tie-break test: distances `[1,1,2,3]`, `recall_at = 1`,
result = the rank-0 id. -/
def exTieRank0 : RecallInput := ⟨1, [10, 20, 30, 40], some [1, 1, 2, 3], 4, [10], 1, 1⟩

/-- Same ground truth, result = the rank-1 id of the tied pair. -/
def exTieRank1 : RecallInput := ⟨1, [10, 20, 30, 40], some [1, 1, 2, 3], 4, [20], 1, 1⟩

/-- Two queries, no ground-truth distances, width-2 rows. -/
def exNoDists : RecallInput := ⟨2, [1, 2, 3, 4], none, 2, [2, 1, 4, 9], 2, 2⟩

/-- Ties at the rank-`recall_at` distance extending to the end of the
stored ground-truth row. -/
def exAllTied : RecallInput := ⟨1, [7, 8, 9], some [5, 5, 5], 3, [8], 1, 1⟩

/-- The numpy-results twin of `exTieRank1`. -/
def exNpTie : RecallInputNp :=
  ⟨1, [10, 20, 30, 40], some [1, 1, 2, 3], 4, ⟨1, fun _ => 20⟩, 1, 1⟩

/-! ### Helper lemmas -/

theorem getD_of_lt {α : Type} (l : List α) (d : α) (m : Nat) (h : m < l.length) :
    l.getD m d = l[m] := by
  rw [List.getD_eq_getElem?_getD, List.getElem?_eq_getElem h]
  rfl

theorem u32sub1_eq (k : Nat) (h1 : 1 ≤ k) (h2 : k ≤ U32) : u32sub1 k = k - 1 := by
  unfold u32sub1
  have hU : 0 < U32 := by unfold U32; positivity
  have e : k + (U32 - 1) = (k - 1) + U32 := by omega
  rw [e, Nat.add_mod_right, Nat.mod_eq_of_lt (by omega)]

/-- A row-local offset is a global in-bounds index: row `i` of `n` rows of
width `dims` plus an offset `cnt ≤ dims` stays within `n * dims ≤ len`. -/
theorem row_bound {dims i n len cnt : Nat} (hi : i < n) (hcnt : cnt ≤ dims)
    (hlen : n * dims ≤ len) : dims * i + cnt ≤ len := by
  have h2 : dims * i + dims = dims * (i + 1) := by ring
  have h3 : dims * (i + 1) ≤ dims * n := Nat.mul_le_mul (Nat.le_refl dims) hi
  have h4 : dims * n = n * dims := Nat.mul_comm _ _
  omega

theorem readSlice_eq {α : Type} (l : List α) :
    ∀ (cnt base : Nat), base + cnt ≤ l.length →
      readSlice l base cnt = some ((l.drop base).take cnt) := by
  intro cnt
  induction cnt with
  | zero => intro base _; simp [readSlice]
  | succ n ih =>
    intro base h
    have hb : base < l.length := by omega
    rw [readSlice, List.getElem?_eq_getElem hb, ih (base + 1) (by omega)]
    simp only [Option.some.injEq]
    rw [List.drop_eq_getElem_cons hb, List.take_succ_cons]

/-- Behaviour of the tie-expansion loop body when every access is in
bounds: it returns the least index `t ≥ tb` at which the distance stops
matching `gt_dist_vec[recall_at - 1]` (or the row width `dims`), having
checked equality at every index in between. -/
theorem tieLoopAux_spec (gtd : List Int) (base k1 dims : Nat)
    (hk1 : k1 < dims) (hlen : base + dims ≤ gtd.length) :
    ∀ fuel tb, tb + fuel = dims →
      ∃ t, tieLoopAux gtd base k1 fuel tb = some t ∧ tb ≤ t ∧ t ≤ dims ∧
        (∀ j, tb ≤ j → j < t →
          gtd.getD (base + j) 0 = gtd.getD (base + k1) 0) ∧
        (t < dims → gtd.getD (base + t) 0 ≠ gtd.getD (base + k1) 0) := by
  intro fuel
  induction fuel with
  | zero =>
    intro tb htb
    exact ⟨tb, rfl, Nat.le_refl _, by omega, fun j h1 h2 => by omega,
      fun h => by omega⟩
  | succ n ih =>
    intro tb htb
    have hb : base + tb < gtd.length := by omega
    have hk : base + k1 < gtd.length := by omega
    have e1 : gtd[base + tb]? = some gtd[base + tb] := List.getElem?_eq_getElem hb
    have e2 : gtd[base + k1]? = some gtd[base + k1] := List.getElem?_eq_getElem hk
    have dtb : gtd.getD (base + tb) 0 = gtd[base + tb] := getD_of_lt _ _ _ hb
    have dk1 : gtd.getD (base + k1) 0 = gtd[base + k1] := getD_of_lt _ _ _ hk
    by_cases hab : gtd[base + tb] = gtd[base + k1]
    · obtain ⟨t, ht, h1, h2, h3, h4⟩ := ih (tb + 1) (by omega)
      refine ⟨t, ?_, by omega, h2, ?_, h4⟩
      · rw [tieLoopAux, e1, e2]
        simp [hab, ht]
      · intro j hj1 hj2
        rcases Nat.eq_or_lt_of_le hj1 with h | h
        · rw [← h, dtb, dk1, hab]
        · exact h3 j h hj2
    · refine ⟨tb, ?_, Nat.le_refl _, by omega, fun j h1 h2 => by omega, ?_⟩
      · rw [tieLoopAux, e1, e2]
        simp [hab]
      · intro _
        rw [dtb, dk1]
        exact hab

/-- The tie-expansion loop started (as in the source) at `tb = k1` with
`k1 < dims`: it runs at least one step (the first comparison is reflexive),
stops no later than `dims`, and matches the rank-`k1` distance on the whole
scanned window. -/
theorem tieLoop_spec (gtd : List Int) (base k1 dims : Nat)
    (hk1 : k1 < dims) (hlen : base + dims ≤ gtd.length) :
    ∃ t, tieLoop gtd base dims k1 k1 = some t ∧ k1 < t ∧ t ≤ dims ∧
      (∀ j, k1 ≤ j → j < t →
        gtd.getD (base + j) 0 = gtd.getD (base + k1) 0) ∧
      (t < dims → gtd.getD (base + t) 0 ≠ gtd.getD (base + k1) 0) := by
  obtain ⟨t, ht, h1, h2, h3, h4⟩ :=
    tieLoopAux_spec gtd base k1 dims hk1 hlen (dims - k1) k1 (by omega)
  refine ⟨t, ht, ?_, h2, h3, h4⟩
  rcases Nat.eq_or_lt_of_le h1 with h | h
  · exfalso
    apply h4 (by omega)
    rw [← h]
  · exact h

/-- `queryRecall` when the distances pointer is null: the ground-truth
window is the first `recall_at` ids of the row, with no tie expansion. -/
theorem queryRecall_of_no_dists (inp : RecallInput) (i : Nat)
    (hd : inp.ground_truth_dists = none)
    (h1 : inp.ground_truth_dims * i + inp.recall_at ≤
      inp.ground_truth_ids.length)
    (h2 : inp.result_dims * i + inp.recall_at ≤ inp.results.length) :
    queryRecall inp i =
      some (matchCount (idWindow inp i inp.recall_at) (resWindow inp i)) := by
  simp only [queryRecall, tieBreaker, hd, readSlice_eq _ _ _ h1,
    readSlice_eq _ _ _ h2, Option.some_bind, Option.map_some']
  rfl

/-- `queryRecall` when distances are present and the input is in bounds:
the ground-truth window is tie-expanded to a width `tb` with
`recall_at ≤ tb ≤ ground_truth_dims`, all scanned distances equal the
rank-`recall_at` one, and the scan stops at the first mismatch. -/
theorem queryRecall_of_dists (inp : RecallInput) (gtd : List Int) (i : Nat)
    (hd : inp.ground_truth_dists = some gtd)
    (hk1 : 1 ≤ inp.recall_at) (hk2 : inp.recall_at ≤ U32)
    (hkd : inp.recall_at ≤ inp.ground_truth_dims)
    (hgl : inp.ground_truth_dims * i + inp.ground_truth_dims ≤ gtd.length)
    (hil : inp.ground_truth_dims * i + inp.ground_truth_dims ≤
      inp.ground_truth_ids.length)
    (hrl : inp.result_dims * i + inp.recall_at ≤ inp.results.length) :
    ∃ tb, tieLoop gtd (inp.ground_truth_dims * i) inp.ground_truth_dims
        (u32sub1 inp.recall_at) (u32sub1 inp.recall_at) = some tb ∧
      inp.recall_at ≤ tb ∧ tb ≤ inp.ground_truth_dims ∧
      (∀ j, inp.recall_at - 1 ≤ j → j < tb →
        gtd.getD (inp.ground_truth_dims * i + j) 0 =
          gtd.getD (inp.ground_truth_dims * i + (inp.recall_at - 1)) 0) ∧
      (tb < inp.ground_truth_dims →
        gtd.getD (inp.ground_truth_dims * i + tb) 0 ≠
          gtd.getD (inp.ground_truth_dims * i + (inp.recall_at - 1)) 0) ∧
      queryRecall inp i =
        some (matchCount (idWindow inp i tb) (resWindow inp i)) := by
  have hu : u32sub1 inp.recall_at = inp.recall_at - 1 := u32sub1_eq _ hk1 hk2
  have hk1d : inp.recall_at - 1 < inp.ground_truth_dims := by omega
  obtain ⟨t, ht, h1, h2, h3, h4⟩ := tieLoop_spec gtd (inp.ground_truth_dims * i)
    (inp.recall_at - 1) inp.ground_truth_dims hk1d hgl
  refine ⟨t, by rw [hu]; exact ht, by omega, h2, h3, h4, ?_⟩
  simp only [queryRecall, tieBreaker, hd, hu, ht,
    readSlice_eq _ _ _ (by omega : inp.ground_truth_dims * i + t ≤
      inp.ground_truth_ids.length),
    readSlice_eq _ _ _ hrl, Option.some_bind, Option.map_some']
  rfl

/-- Under the validity precondition every per-query computation succeeds. -/
theorem queryRecall_isSome (inp : RecallInput) (hv : ValidInput inp) (i : Nat)
    (hi : i < inp.num_queries) : ∃ c, queryRecall inp i = some c := by
  obtain ⟨hk1, hk2, hkd, hkr, hgl, hdl, hrl⟩ := hv
  cases hdist : inp.ground_truth_dists with
  | none =>
    exact ⟨_, queryRecall_of_no_dists inp i hdist
      (row_bound hi hkd hgl) (row_bound hi hkr hrl)⟩
  | some gtd =>
    obtain ⟨tb, _, _, _, _, _, hq⟩ := queryRecall_of_dists inp gtd i hdist hk1
      (Nat.le_of_lt hk2) hkd (row_bound hi (Nat.le_refl _) (hdl gtd hdist))
      (row_bound hi (Nat.le_refl _) hgl) (row_bound hi hkr hrl)
    exact ⟨_, hq⟩

/-- Under the validity precondition the summation loop succeeds. -/
theorem recallSum_some (inp : RecallInput) (hv : ValidInput inp) :
    ∀ n, n ≤ inp.num_queries → ∃ s, recallSum inp n = some s := by
  intro n
  induction n with
  | zero => exact fun _ => ⟨0, rfl⟩
  | succ m ih =>
    intro h
    obtain ⟨s, hs⟩ := ih (by omega)
    obtain ⟨c, hc⟩ := queryRecall_isSome inp hv m (by omega)
    exact ⟨s + c, by rw [recallSum, hs, hc]⟩

/-- The store-threading per-query body returns the pure body's value and
hands the store on untouched. -/
theorem queryRecallS_eq (inp : RecallInput) (i : Nat) :
    queryRecallS inp.store inp.ground_truth_dims inp.result_dims
        inp.recall_at i =
      (queryRecall inp i).map (fun c => (inp.store, c)) := by
  unfold queryRecallS queryRecall RecallInput.store
  dsimp only
  cases tieBreaker inp.ground_truth_dists inp.ground_truth_dims
      inp.recall_at i with
  | none => rfl
  | some tb =>
    simp only [Option.some_bind]
    cases readSlice inp.ground_truth_ids (inp.ground_truth_dims * i) tb with
    | none => rfl
    | some gtL =>
      simp only [Option.some_bind]
      cases readSlice inp.results (inp.result_dims * i) inp.recall_at with
      | none => rfl
      | some resL => rfl

/-- The store-threading summation loop is the pure loop with the store
carried through unchanged. -/
theorem recallSumS_eq (inp : RecallInput) :
    ∀ n, recallSumS inp.ground_truth_dims inp.result_dims inp.recall_at n
        inp.store =
      (recallSum inp n).map (fun s => (inp.store, s)) := by
  intro n
  induction n with
  | zero => rfl
  | succ m ih =>
    rw [recallSumS, recallSum, ih]
    cases recallSum inp m with
    | none => rfl
    | some s =>
      simp only [Option.map_some']
      rw [queryRecallS_eq]
      cases queryRecall inp m with
      | none => rfl
      | some c => rfl

/-- Under element-wise agreement the numpy range read equals the
vector range read. -/
theorem readNp_eq_readSlice (a : NpArrayU32) (l : List Nat)
    (hsize : a.size = l.length)
    (hdata : ∀ j, j < a.size → a.data j = l.getD j 0) :
    ∀ cnt base, readNp a base cnt = readSlice l base cnt := by
  intro cnt
  induction cnt with
  | zero => intro base; rfl
  | succ n ih =>
    intro base
    have hx : npGet a base = l[base]? := by
      unfold npGet
      by_cases hb : base < a.size
      · rw [if_pos hb, List.getElem?_eq_getElem (by omega), hdata base hb,
          getD_of_lt _ _ _ (by omega)]
      · rw [if_neg hb, List.getElem?_eq_none (by omega)]
    rw [readNp, readSlice, ih (base + 1), hx]
    cases l[base]? <;> cases readSlice l (base + 1) n <;> rfl

/-! ### Claim theorems -/

/-- C2: for every valid input `calculate_recall` returns
`(total matched / (num_queries * recall_at)) * 100`, where the total is the
sum over queries of the number of ids of the (tie-expanded) ground-truth
set found among the first `recall_at` results of the query
(`recallSum`/`queryRecall`). -/
theorem C2_recall_formula (inp : RecallInput) (hv : ValidInput inp) :
    ∃ total, recallSum inp inp.num_queries = some total ∧
      calculate_recall inp =
        some ((total : ℚ) /
          ((inp.num_queries : ℚ) * (inp.recall_at : ℚ)) * 100) := by
  obtain ⟨total, ht⟩ := recallSum_some inp hv inp.num_queries (Nat.le_refl _)
  refine ⟨total, ht, ?_⟩
  simp only [calculate_recall, ht]
  congr 1
  rw [div_mul_div_comm, div_mul_eq_mul_div]

/-- Witness for C2 on a concrete valid input. -/
theorem C2_recall_formula_witness :
    ValidInput exNoDists ∧
    ∃ total, recallSum exNoDists exNoDists.num_queries = some total ∧
      calculate_recall exNoDists =
        some ((total : ℚ) /
          ((exNoDists.num_queries : ℚ) * (exNoDists.recall_at : ℚ)) * 100) :=
  ⟨by decide, C2_recall_formula exNoDists (by decide)⟩

/-- C10: under the claimed precondition every access of `calculate_recall`
is in bounds — the total embedding returns `some` —, and the wrapped
unsigned `recall_at - 1` is the ordinary `recall_at - 1`, a valid in-row
index. -/
theorem C10_memory_safety (inp : RecallInput) (hv : ValidInput inp) :
    (∃ v, calculate_recall inp = some v) ∧
    u32sub1 inp.recall_at = inp.recall_at - 1 ∧
    inp.recall_at - 1 < inp.ground_truth_dims := by
  obtain ⟨total, ht⟩ := recallSum_some inp hv inp.num_queries (Nat.le_refl _)
  obtain ⟨hk1, hk2, hkd, _, _, _, _⟩ := hv
  refine ⟨⟨(total : ℚ) / (inp.num_queries : ℚ) * (100 / (inp.recall_at : ℚ)),
    ?_⟩, u32sub1_eq _ hk1 (Nat.le_of_lt hk2), by omega⟩
  simp only [calculate_recall, ht]

/-- Witness for C10 on a concrete valid input. -/
theorem C10_memory_safety_witness :
    ValidInput exTieRank0 ∧
    ((∃ v, calculate_recall exTieRank0 = some v) ∧
      u32sub1 exTieRank0.recall_at = exTieRank0.recall_at - 1 ∧
      exTieRank0.recall_at - 1 < exTieRank0.ground_truth_dims) :=
  ⟨by decide, C10_memory_safety exTieRank0 (by decide)⟩

/-- C7: with a null distances pointer the per-query ground-truth set is
exactly the first `recall_at` ids of the row — `tie_breaker` stays
`recall_at` and the window is `idWindow inp i inp.recall_at`. -/
theorem C7_no_dists (inp : RecallInput) (i : Nat) (hv : ValidInput inp)
    (hd : inp.ground_truth_dists = none) (hi : i < inp.num_queries) :
    tieBreaker inp.ground_truth_dists inp.ground_truth_dims inp.recall_at i =
      some inp.recall_at ∧
    queryRecall inp i =
      some (matchCount (idWindow inp i inp.recall_at) (resWindow inp i)) := by
  obtain ⟨hk1, hk2, hkd, hkr, hgl, hdl, hrl⟩ := hv
  exact ⟨by rw [hd]; rfl,
    queryRecall_of_no_dists inp i hd (row_bound hi hkd hgl)
      (row_bound hi hkr hrl)⟩

/-- Witness for C7 on a concrete distance-free input. -/
theorem C7_no_dists_witness :
    (ValidInput exNoDists ∧ exNoDists.ground_truth_dists = none ∧
      0 < exNoDists.num_queries) ∧
    queryRecall exNoDists 0 =
      some (matchCount (idWindow exNoDists 0 exNoDists.recall_at)
        (resWindow exNoDists 0)) :=
  ⟨⟨by decide, rfl, by decide⟩,
    (C7_no_dists exNoDists 0 (by decide) rfl (by decide)).2⟩

/-- C3: the tie scan starts at `recall_at - 1` and never advances past
`ground_truth_dims`: when every stored distance from rank `recall_at - 1`
on is tied with the rank-`recall_at` distance, the scan stops exactly at
`ground_truth_dims`, and recall for the query is computed against the
window truncated to the `ground_truth_dims` stored entries. -/
theorem C3_truncated_ties (inp : RecallInput) (gtd : List Int) (i : Nat)
    (hv : ValidInput inp) (hd : inp.ground_truth_dists = some gtd)
    (hi : i < inp.num_queries)
    (hties : ∀ j, j < inp.ground_truth_dims → inp.recall_at - 1 ≤ j →
      gtd.getD (inp.ground_truth_dims * i + j) 0 =
        gtd.getD (inp.ground_truth_dims * i + (inp.recall_at - 1)) 0) :
    tieLoop gtd (inp.ground_truth_dims * i) inp.ground_truth_dims
        (u32sub1 inp.recall_at) (u32sub1 inp.recall_at) =
      some inp.ground_truth_dims ∧
    queryRecall inp i =
      some (matchCount (idWindow inp i inp.ground_truth_dims)
        (resWindow inp i)) ∧
    (idWindow inp i inp.ground_truth_dims).length ≤
      inp.ground_truth_dims := by
  obtain ⟨hk1, hk2, hkd, hkr, hgl, hdl, hrl⟩ := hv
  obtain ⟨tb, htl, h1, h2, h3, h4, hq⟩ := queryRecall_of_dists inp gtd i hd hk1
    (Nat.le_of_lt hk2) hkd (row_bound hi (Nat.le_refl _) (hdl gtd hd))
    (row_bound hi (Nat.le_refl _) hgl) (row_bound hi hkr hrl)
  have htb : tb = inp.ground_truth_dims := by
    by_contra hne
    have hlt : tb < inp.ground_truth_dims := lt_of_le_of_ne h2 hne
    exact h4 hlt (hties tb hlt (by omega))
  subst htb
  exact ⟨htl, hq, List.length_take_le _ _⟩

/-- Witness for C3: a row whose stored distances are all tied. -/
theorem C3_truncated_ties_witness :
    (ValidInput exAllTied ∧ 0 < exAllTied.num_queries) ∧
    tieLoop [5, 5, 5] (exAllTied.ground_truth_dims * 0)
        exAllTied.ground_truth_dims (u32sub1 exAllTied.recall_at)
        (u32sub1 exAllTied.recall_at) = some exAllTied.ground_truth_dims :=
  ⟨⟨by decide, by decide⟩,
    (C3_truncated_ties exAllTied [5, 5, 5] 0 (by decide) rfl (by decide)
      (by decide)).1⟩

/-- C1: with ground-truth distances available the per-query ground-truth
set is the row's first `tb` ids where `tb` expands past `recall_at` to
cover, for a distance-sorted row, exactly the entries whose distance equals
the distance at rank `recall_at` (index `recall_at - 1`); in particular for
distances `[1,1,2,3]` with `recall_at = 1` a result holding either id of
the tied pair scores 100%. -/
theorem C1_tie_expansion :
    (∀ (inp : RecallInput) (gtd : List Int) (i : Nat),
      ValidInput inp → inp.ground_truth_dists = some gtd →
      i < inp.num_queries →
      (∀ b, b < inp.ground_truth_dims → ∀ a, a ≤ b →
        gtd.getD (inp.ground_truth_dims * i + a) 0 ≤
          gtd.getD (inp.ground_truth_dims * i + b) 0) →
      ∃ tb, inp.recall_at ≤ tb ∧ tb ≤ inp.ground_truth_dims ∧
        queryRecall inp i =
          some (matchCount (idWindow inp i tb) (resWindow inp i)) ∧
        ∀ j, j < inp.ground_truth_dims →
          (j < tb ↔ j < inp.recall_at ∨
            gtd.getD (inp.ground_truth_dims * i + j) 0 =
              gtd.getD (inp.ground_truth_dims * i + (inp.recall_at - 1)) 0)) ∧
    calculate_recall exTieRank0 = some 100 ∧
    calculate_recall exTieRank1 = some 100 := by
  refine ⟨?_, ?_, ?_⟩
  · intro inp gtd i hv hd hi hsort
    obtain ⟨hk1, hk2, hkd, hkr, hgl, hdl, hrl⟩ := hv
    obtain ⟨tb, htl, h1, h2, h3, h4, hq⟩ := queryRecall_of_dists inp gtd i hd
      hk1 (Nat.le_of_lt hk2) hkd (row_bound hi (Nat.le_refl _) (hdl gtd hd))
      (row_bound hi (Nat.le_refl _) hgl) (row_bound hi hkr hrl)
    refine ⟨tb, h1, h2, hq, ?_⟩
    intro j hj
    constructor
    · intro hjtb
      by_cases hjk : j < inp.recall_at
      · exact Or.inl hjk
      · exact Or.inr (h3 j (by omega) hjtb)
    · rintro (hjk | hjeq)
      · omega
      · by_contra hnot
        push_neg at hnot
        have htblt : tb < inp.ground_truth_dims := by omega
        have e1 : gtd.getD (inp.ground_truth_dims * i + tb) 0 ≤
            gtd.getD (inp.ground_truth_dims * i + j) 0 :=
          hsort j hj tb (by omega)
        have e2 : gtd.getD (inp.ground_truth_dims * i +
              (inp.recall_at - 1)) 0 ≤
            gtd.getD (inp.ground_truth_dims * i + tb) 0 :=
          hsort tb htblt _ (by omega)
        exact h4 htblt (le_antisymm (by rw [← hjeq]; exact e1) e2)
  · have h : recallSum exTieRank0 exTieRank0.num_queries = some 1 := by decide
    simp [calculate_recall, h]
    norm_num [exTieRank0]
  · have h : recallSum exTieRank1 exTieRank1.num_queries = some 1 := by decide
    simp [calculate_recall, h]
    norm_num [exTieRank1]

/-- Witness for C1's general conjunct at the spec's `[1,1,2,3]` input. -/
theorem C1_tie_expansion_witness :
    (ValidInput exTieRank1 ∧ 0 < exTieRank1.num_queries) ∧
    ∃ tb, exTieRank1.recall_at ≤ tb ∧ tb ≤ exTieRank1.ground_truth_dims ∧
      queryRecall exTieRank1 0 =
        some (matchCount (idWindow exTieRank1 0 tb) (resWindow exTieRank1 0)) ∧
      ∀ j, j < exTieRank1.ground_truth_dims →
        (j < tb ↔ j < exTieRank1.recall_at ∨
          ([1, 1, 2, 3] : List Int).getD
              (exTieRank1.ground_truth_dims * 0 + j) 0 =
            ([1, 1, 2, 3] : List Int).getD (exTieRank1.ground_truth_dims * 0 +
              (exTieRank1.recall_at - 1)) 0) :=
  ⟨⟨by decide, by decide⟩,
    C1_tie_expansion.1 exTieRank1 [1, 1, 2, 3] 0 (by decide) rfl (by decide)
      (by decide)⟩

/-- C8: `calculate_recall` is deterministic and mutation-free: its
store-threading execution returns exactly the value of the pure function of
the inputs, paired with the caller's arrays unchanged. -/
theorem C8_pure (inp : RecallInput) :
    calculate_recall_exec inp =
      (calculate_recall inp).map (fun v => (v, inp.store)) := by
  unfold calculate_recall_exec calculate_recall
  rw [recallSumS_eq]
  cases recallSum inp inp.num_queries with
  | none => rfl
  | some total => rfl

/-- C9: with equal scalar arguments and element-wise equal results arrays,
`calculate_recall_numpy_input` and `calculate_recall` return the same
value. -/
theorem C9_numpy_equiv (inp : RecallInput) (np : RecallInputNp)
    (h1 : np.num_queries = inp.num_queries)
    (h2 : np.ground_truth_ids = inp.ground_truth_ids)
    (h3 : np.ground_truth_dists = inp.ground_truth_dists)
    (h4 : np.ground_truth_dims = inp.ground_truth_dims)
    (h5 : np.result_dims = inp.result_dims)
    (h6 : np.recall_at = inp.recall_at)
    (hsize : np.results.size = inp.results.length)
    (hdata : ∀ j, j < np.results.size →
      np.results.data j = inp.results.getD j 0) :
    calculate_recall_numpy_input np = calculate_recall inp := by
  have hq : ∀ i, queryRecallNp np i = queryRecall inp i := by
    intro i
    unfold queryRecallNp queryRecall
    rw [h2, h3, h4, h5, h6,
      readNp_eq_readSlice np.results inp.results hsize hdata]
  have hs : ∀ n, recallSumNp np n = recallSum inp n := by
    intro n
    induction n with
    | zero => rfl
    | succ m ih => rw [recallSumNp, recallSum, ih, hq]
  unfold calculate_recall_numpy_input calculate_recall
  rw [hs, h1, h6]

/-- Witness for C9 at a concrete vector/numpy pair holding the same data. -/
theorem C9_numpy_equiv_witness :
    calculate_recall_numpy_input exNpTie = calculate_recall exTieRank1 :=
  C9_numpy_equiv exTieRank1 exNpTie rfl rfl rfl rfl rfl rfl (by decide)
    (by decide)

/-- C4 (refuted by the code): `batch_search_numpy_input` never reads its
`num_threads` argument — with the ambient OpenMP setting at 8 and a caller
passing `num_threads = 2`, its parallel region runs with 8 workers, not 2,
whereas `batch_search` under the same conditions sets and uses 2. -/
theorem C4_numpy_ignores_num_threads :
    (batch_search_numpy_input_threads 2 ⟨8⟩).1 = 8 ∧
    (batch_search_numpy_input_threads 2 ⟨8⟩).1 ≠ 2 ∧
    batch_search_threads 2 ⟨8⟩ = (2, ⟨2⟩) :=
  ⟨rfl, by decide, rfl⟩

/-- C5: when the underlying index load returns 0, `load_index` invokes
`cache_bfs_levels` with a budget of exactly 1000 nodes and returns 0. -/
theorem C5_load_success (ls : Int) (h : ls = 0) :
    (load_index ls).cache_bfs_budgets = [1000] ∧ (load_index ls).ret = 0 ∧
    (load_index ls).usable = true := by
  subst h
  exact ⟨rfl, rfl, rfl⟩

/-- Witness for C5 at the successful status 0. -/
theorem C5_load_success_witness :
    (0 : Int) = 0 ∧ (load_index 0).cache_bfs_budgets = [1000] ∧
    (load_index 0).ret = 0 :=
  ⟨rfl, (C5_load_success 0 rfl).1, (C5_load_success 0 rfl).2.1⟩

/-- C6: when the underlying index load fails, `load_index` returns that
non-zero status, performs no cache warming, and the instance stays
unusable for queries. -/
theorem C6_load_failure (ls : Int) (h : ls ≠ 0) :
    (load_index ls).ret = ls ∧ (load_index ls).cache_bfs_budgets = [] ∧
    (load_index ls).usable = false := by
  unfold load_index
  rw [if_pos h]
  exact ⟨rfl, rfl, rfl⟩

/-- Witness for C6 at the failing status 1. -/
theorem C6_load_failure_witness :
    (1 : Int) ≠ 0 ∧ (load_index 1).ret = 1 ∧
    (load_index 1).cache_bfs_budgets = [] ∧ (load_index 1).usable = false :=
  ⟨by decide, C6_load_failure 1 (by decide)⟩

end DiskannBindings
